import Mathlib

/-!
# Verification of the OBS controller core (`src/obsController.py`)

We shallowly embed the input/audio orchestration and scene-graph logic of
`ObsController`.  The remote endpoint's view of the inputs is the state: a
list of input records, each carrying its name, its (possibly missing)
capability bitmask `inputKindCaps`, and its current mute flag.  Gateway
mutations (`set_input_mute`, `toggle_input_mute`) are explicit `Request`
values; issuing a request applies it to the state.  Batch loops are embedded
threading the state through each iteration, exactly as the Python loops
re-fetch live state on every `is_audio_input` call.  A failure oracle
`f : Nat -> Bool` models the best-effort gateway: the k-th issued request is
dropped when `f k = false`; `allOk` is the interference-free gateway.
-/

/-- One input record as returned by `get_input_list`, together with the
endpoint-side mute flag for that input.  `inputKindCaps = none` models an
info record that lacks the `"inputKindCaps"` field entirely (the Python code
reads it with `info.get("inputKindCaps", 0)`). -/
structure InputInfo where
  inputName : String
  inputKindCaps : Option Nat
  muted : Bool
deriving DecidableEq, Repr

/-- The endpoint state: the list of inputs, as `get_inputs` returns it. -/
abbrev State := List InputInfo

/-- A mutation request sent to the gateway: `set_input_mute(name, v)` or
`toggle_input_mute(name)`. -/
inductive Request where
  | setMute (name : String) (v : Bool)
  | toggleMute (name : String)
deriving DecidableEq, Repr

/-- The input name a request targets. -/
def reqName : Request → String
  | .setMute n _ => n
  | .toggleMute n => n

/-- Effect of one request on one input record (requests address inputs by
name; a request leaves every other input untouched). -/
def applyEntry : Request → InputInfo → InputInfo
  | .setMute n v, i => if i.inputName == n then { i with muted := v } else i
  | .toggleMute n, i => if i.inputName == n then { i with muted := !i.muted } else i

/-- Effect of one successfully delivered request on the endpoint state. -/
def applyReq (r : Request) (s : State) : State :=
  s.map (applyEntry r)

/-- Replay a request trace on a state. -/
def run (tr : List Request) (s : State) : State :=
  tr.foldl (fun s r => applyReq r s) s

/-- Replay a request trace on a single input record. -/
def applyAll (tr : List Request) (i : InputInfo) : InputInfo :=
  tr.foldl (fun i r => applyEntry r i) i

/-- `get_input_info`: first input whose name matches, scanning the fetched
input list front to back. -/
def get_input_info (s : State) (name : String) : Option InputInfo :=
  s.find? (fun i => i.inputName == name)

/-- `SUPPORTS_AUDIO = 1 << 1` from `is_audio_input`. -/
def SUPPORTS_AUDIO : Nat := 1 <<< 1

/-- The pure capability decoder: `bool(caps & SUPPORTS_AUDIO)`. -/
def supports_audio (caps : Nat) : Bool :=
  (caps &&& SUPPORTS_AUDIO) != 0

/-- `is_audio_input(name)`: look the input up; a missing input is not audio;
a missing `inputKindCaps` field defaults to `0`. -/
def is_audio_input (s : State) (name : String) : Bool :=
  match get_input_info s name with
  | none => false
  | some info => supports_audio (info.inputKindCaps.getD 0)

/-- The request `mute_input(name)` issues: `set_input_mute(name, True)` after
the capability check, nothing otherwise. -/
def mute_input_req (s : State) (name : String) : Option Request :=
  if is_audio_input s name then some (Request.setMute name true) else none

/-- The request `unmute_input(name)` issues. -/
def unmute_input_req (s : State) (name : String) : Option Request :=
  if is_audio_input s name then some (Request.setMute name false) else none

/-- The request `toggle_input_mute(name)` issues. -/
def toggle_input_mute_req (s : State) (name : String) : Option Request :=
  if is_audio_input s name then some (Request.toggleMute name) else none

/-- `mute_input(name)`: result flag and resulting endpoint state. -/
def mute_input (s : State) (name : String) : Bool × State :=
  match mute_input_req s name with
  | some r => (true, applyReq r s)
  | none => (false, s)

/-- `unmute_input(name)`: result flag and resulting endpoint state. -/
def unmute_input (s : State) (name : String) : Bool × State :=
  match unmute_input_req s name with
  | some r => (true, applyReq r s)
  | none => (false, s)

/-- `toggle_input_mute(name)`: result flag and resulting endpoint state. -/
def toggle_input_mute (s : State) (name : String) : Bool × State :=
  match toggle_input_mute_req s name with
  | some r => (true, applyReq r s)
  | none => (false, s)

/-- Deliver an optional request through the failure oracle `f`: the k-th
issued request is applied only when `f k = true`; either way the attempt
consumes one tick. -/
def doReq (f : Nat → Bool) (k : Nat) (r : Option Request) (s : State) : State × Nat :=
  match r with
  | none => (s, k)
  | some req => (if f k then applyReq req s else s, k + 1)

/-- The gateway that delivers every request (no interference). -/
def allOk : Nat → Bool := fun _ => true

/-- Loop body of `mute_all_audio`: iterate the snapshot `l` of the input
list, skipping names in `skip`, muting each audio-capable input.  Returns
the trace of issued requests, the final state and the final tick. -/
def mute_all_audio_go (f : Nat → Bool) (skip : List String) :
    List InputInfo → State → Nat → List Request × State × Nat
  | [], s, k => ([], s, k)
  | info :: rest, s, k =>
    if skip.contains info.inputName then
      mute_all_audio_go f skip rest s k
    else if is_audio_input s info.inputName then
      let r := mute_input_req s info.inputName
      let sk := doReq f k r s
      let res := mute_all_audio_go f skip rest sk.1 sk.2
      (r.toList ++ res.1, res.2)
    else
      mute_all_audio_go f skip rest s k

/-- `mute_all_audio(except_inputs)`: trace of issued requests and final
state.  The iteration snapshot is `get_inputs()` at entry, i.e. `s`. -/
def mute_all_audio (f : Nat → Bool) (except_inputs : List String) (s : State) :
    List Request × State :=
  let res := mute_all_audio_go f except_inputs s s 0
  (res.1, res.2.1)

/-- Loop body of `unmute_all_audio`: unmute each target name in turn. -/
def unmute_all_go (f : Nat → Bool) :
    List String → State → Nat → List Request × State × Nat
  | [], s, k => ([], s, k)
  | name :: rest, s, k =>
    let r := unmute_input_req s name
    let sk := doReq f k r s
    let res := unmute_all_go f rest sk.1 sk.2
    (r.toList ++ res.1, res.2)

/-- `unmute_all_audio(only_inputs)`: when `only_inputs` is absent the targets
are the audio-capable names of the whole input list, otherwise the
audio-capable names among `only_inputs`. -/
def unmute_all_audio (f : Nat → Bool) (only_inputs : Option (List String)) (s : State) :
    List Request × State :=
  let targets : List String :=
    match only_inputs with
    | none => (s.filter (fun i => is_audio_input s i.inputName)).map (fun i => i.inputName)
    | some names => names.filter (fun n => is_audio_input s n)
  let res := unmute_all_go f targets s 0
  (res.1, res.2.1)

/-- Loop body of `mute_all_but`: skip non-audio inputs; unmute kept names,
mute everything else. -/
def mute_all_but_go (f : Nat → Bool) (keep : List String) :
    List InputInfo → State → Nat → List Request × State × Nat
  | [], s, k => ([], s, k)
  | info :: rest, s, k =>
    if is_audio_input s info.inputName then
      let r := if keep.contains info.inputName then unmute_input_req s info.inputName
               else mute_input_req s info.inputName
      let sk := doReq f k r s
      let res := mute_all_but_go f keep rest sk.1 sk.2
      (r.toList ++ res.1, res.2)
    else
      mute_all_but_go f keep rest s k

/-- `mute_all_but(keep_inputs)`: trace of issued requests and final state. -/
def mute_all_but (f : Nat → Bool) (keep_inputs : List String) (s : State) :
    List Request × State :=
  let res := mute_all_but_go f keep_inputs s s 0
  (res.1, res.2.1)

/-- Loop body of `unmute_only` (textually the same algorithm as
`mute_all_but_go`, embedded from its own source lines). -/
def unmute_only_go (f : Nat → Bool) (keep : List String) :
    List InputInfo → State → Nat → List Request × State × Nat
  | [], s, k => ([], s, k)
  | info :: rest, s, k =>
    if is_audio_input s info.inputName then
      let r := if keep.contains info.inputName then unmute_input_req s info.inputName
               else mute_input_req s info.inputName
      let sk := doReq f k r s
      let res := unmute_only_go f keep rest sk.1 sk.2
      (r.toList ++ res.1, res.2)
    else
      unmute_only_go f keep rest s k

/-- `unmute_only(inputs)`: trace of issued requests and final state. -/
def unmute_only (f : Nat → Bool) (inputs : List String) (s : State) :
    List Request × State :=
  let res := unmute_only_go f inputs s s 0
  (res.1, res.2.1)

/-- A child scene item of a group, as `get_group_scene_item_list` reports
it. -/
structure SceneChild where
  sourceName : String
  sceneItemId : Nat
deriving DecidableEq, Repr

/-- A top-level scene item of the current scene.  `children = some kids`
means `get_group_scene_item_list` succeeds on it (it is a group);
`children = none` means that call raises (it is not a group). -/
structure TopItem where
  sourceName : String
  children : Option (List SceneChild)
deriving DecidableEq, Repr

/-- `_find_source_in_groups(source_name)` over the top-level items of the
current scene: probe each item as a group (a failed child fetch means "not a
group": continue), scan its children, return on the first match. -/
def find_in_groups : List TopItem → String → Option String × Option Nat
  | [], _ => (none, none)
  | item :: rest, name =>
    match item.children with
    | none => find_in_groups rest name
    | some kids =>
      match kids.find? (fun c => c.sourceName == name) with
      | some c => (some item.sourceName, some c.sceneItemId)
      | none => find_in_groups rest name

/-- `get_sources()` over the top-level items of the current scene: the child
names of every group, in enumeration order; non-groups contribute nothing. -/
def get_sources : List TopItem → List String
  | [] => []
  | item :: rest =>
    match item.children with
    | none => get_sources rest
    | some kids => kids.map (fun c => c.sourceName) ++ get_sources rest

/-- The data-model invariant: input names are unique. -/
def UniqNames (s : State) : Prop :=
  (s.map (fun i => i.inputName)).Nodup

instance (s : State) : Decidable (UniqNames s) :=
  inferInstanceAs (Decidable (List.Nodup _))

/-- Is the request a `set_input_mute(_, True)`? -/
def isSetTrue : Request → Bool
  | .setMute _ v => v
  | .toggleMute _ => false

/-! ## Basic lemmas about requests and entries -/

theorem applyEntry_inputName (r : Request) (i : InputInfo) :
    (applyEntry r i).inputName = i.inputName := by
  cases r <;> simp only [applyEntry] <;> split <;> rfl

theorem applyEntry_inputKindCaps (r : Request) (i : InputInfo) :
    (applyEntry r i).inputKindCaps = i.inputKindCaps := by
  cases r <;> simp only [applyEntry] <;> split <;> rfl

theorem applyEntry_of_ne (r : Request) (i : InputInfo) (h : (i.inputName == reqName r) = false) :
    applyEntry r i = i := by
  cases r <;> simp only [applyEntry, reqName] at h ⊢ <;> simp [h]

theorem get_input_info_applyReq (r : Request) (s : State) (name : String) :
    get_input_info (applyReq r s) name = (get_input_info s name).map (applyEntry r) := by
  simp only [get_input_info, applyReq, List.find?_map]
  have hp : ((fun i : InputInfo => i.inputName == name) ∘ applyEntry r) =
      (fun i : InputInfo => i.inputName == name) := by
    funext i
    simp [Function.comp, applyEntry_inputName]
  rw [hp]

theorem is_audio_input_applyReq (r : Request) (s : State) (name : String) :
    is_audio_input (applyReq r s) name = is_audio_input s name := by
  simp only [is_audio_input, get_input_info_applyReq]
  cases get_input_info s name with
  | none => rfl
  | some i => simp [applyEntry_inputKindCaps]

theorem is_audio_input_doReq (f : Nat → Bool) (k : Nat) (r : Option Request) (s : State)
    (name : String) :
    is_audio_input (doReq f k r s).1 name = is_audio_input s name := by
  cases r with
  | none => rfl
  | some req =>
    simp only [doReq]
    split
    · exact is_audio_input_applyReq req s name
    · rfl

/-! ## Replaying traces -/

theorem run_nil (s : State) : run [] s = s := rfl

theorem run_cons (r : Request) (tr : List Request) (s : State) :
    run (r :: tr) s = run tr (applyReq r s) := rfl

theorem run_eq_map (tr : List Request) (s : State) :
    run tr s = s.map (applyAll tr) := by
  induction tr generalizing s with
  | nil =>
    simp only [run, List.foldl_nil]
    exact (List.map_id s).symm
  | cons r tr ih =>
    rw [run_cons, ih, applyReq, List.map_map]
    congr 1

theorem applyAll_nil (i : InputInfo) : applyAll [] i = i := rfl

theorem applyAll_cons (r : Request) (tr : List Request) (i : InputInfo) :
    applyAll (r :: tr) i = applyAll tr (applyEntry r i) := rfl

theorem applyAll_of_not_targeted (tr : List Request) (i : InputInfo)
    (h : ∀ r ∈ tr, reqName r ≠ i.inputName) : applyAll tr i = i := by
  induction tr with
  | nil => rfl
  | cons r tr ih =>
    rw [applyAll_cons, applyEntry_of_ne]
    · exact ih (fun r hr => h r (List.mem_cons_of_mem _ hr))
    · have := h r (List.mem_cons_self r tr)
      simp [beq_iff_eq]
      exact fun hh => this hh.symm

theorem applyAll_allSetTrue (tr : List Request) (i : InputInfo)
    (h : ∀ r ∈ tr, isSetTrue r = true) :
    applyAll tr i = { i with muted := i.muted || tr.any (fun r => reqName r == i.inputName) } := by
  induction tr generalizing i with
  | nil => simp [applyAll_nil]
  | cons r tr ih =>
    have hr := h r (List.mem_cons_self r tr)
    have htr : ∀ x ∈ tr, isSetTrue x = true := fun x hx => h x (List.mem_cons_of_mem _ hx)
    cases r with
    | toggleMute n => simp [isSetTrue] at hr
    | setMute n v =>
      simp only [isSetTrue] at hr
      subst hr
      rw [applyAll_cons, ih _ htr]
      by_cases hn : i.inputName = n
      · subst hn
        simp [applyEntry, reqName]
      · have hb : (i.inputName == n) = false := beq_eq_false_iff_ne.mpr hn
        have hb2 : (n == i.inputName) = false :=
          beq_eq_false_iff_ne.mpr (fun e => hn e.symm)
        simp [applyEntry, reqName, hb, hb2]

/-! ## Loop lemmas: `mute_all_but` / `unmute_only` -/

theorem unmute_only_go_eq_mute_all_but_go (f : Nat → Bool) (keep : List String)
    (l : List InputInfo) (s : State) (k : Nat) :
    unmute_only_go f keep l s k = mute_all_but_go f keep l s k := by
  induction l generalizing s k with
  | nil => rfl
  | cons info rest ih => simp only [unmute_only_go, mute_all_but_go, ih]

theorem mute_all_but_go_state (keep : List String) (l : List InputInfo) (s : State) (k : Nat) :
    (mute_all_but_go allOk keep l s k).2.1 = run (mute_all_but_go allOk keep l s k).1 s := by
  induction l generalizing s k with
  | nil => rfl
  | cons info rest ih =>
    by_cases ha : is_audio_input s info.inputName = true
    · by_cases hk : keep.contains info.inputName = true
      · simp only [mute_all_but_go, ha, hk, if_true, unmute_input_req, doReq, allOk,
          Option.toList_some, List.cons_append, List.nil_append, run_cons, ih]
      · simp only [Bool.not_eq_true] at hk
        simp only [mute_all_but_go, ha, hk, if_true, Bool.false_eq_true, if_false,
          mute_input_req, doReq, allOk, Option.toList_some, List.cons_append,
          List.nil_append, run_cons, ih]
    · simp only [Bool.not_eq_true] at ha
      simp only [mute_all_but_go, ha, Bool.false_eq_true, if_false, ih]

theorem mute_all_but_go_trace_congr (f g : Nat → Bool) (keep : List String)
    (l : List InputInfo) (s1 s2 : State) (k1 k2 : Nat)
    (h : ∀ n, is_audio_input s1 n = is_audio_input s2 n) :
    (mute_all_but_go f keep l s1 k1).1 = (mute_all_but_go g keep l s2 k2).1 := by
  induction l generalizing s1 s2 k1 k2 with
  | nil => rfl
  | cons info rest ih =>
    by_cases ha : is_audio_input s1 info.inputName = true
    · have ha2 : is_audio_input s2 info.inputName = true := (h info.inputName).symm.trans ha
      by_cases hk : keep.contains info.inputName = true
      · simp only [mute_all_but_go, ha, ha2, hk, if_true, unmute_input_req,
          Option.toList_some, List.cons_append, List.nil_append]
        congr 1
        exact ih _ _ _ _ (fun n => by simp only [is_audio_input_doReq, h n])
      · simp only [Bool.not_eq_true] at hk
        simp only [mute_all_but_go, ha, ha2, hk, if_true, Bool.false_eq_true, if_false,
          mute_input_req, Option.toList_some, List.cons_append, List.nil_append]
        congr 1
        exact ih _ _ _ _ (fun n => by simp only [is_audio_input_doReq, h n])
    · have ha2 : ¬is_audio_input s2 info.inputName = true := fun hh =>
        ha ((h info.inputName).trans hh)
      simp only [Bool.not_eq_true] at ha ha2
      simp only [mute_all_but_go, ha, ha2, Bool.false_eq_true, if_false]
      exact ih _ _ _ _ h

theorem mute_all_but_go_trace_shape (f : Nat → Bool) (keep : List String)
    (l : List InputInfo) (s0 s : State) (k : Nat)
    (hinv : ∀ n, is_audio_input s n = is_audio_input s0 n) :
    ∀ r ∈ (mute_all_but_go f keep l s k).1,
      is_audio_input s0 (reqName r) = true ∧
      r = Request.setMute (reqName r) (!keep.contains (reqName r)) := by
  induction l generalizing s k hinv with
  | nil => intro r hr; simp [mute_all_but_go] at hr
  | cons info rest ih =>
    intro r hr
    by_cases ha : is_audio_input s info.inputName = true
    · have hinv2 : ∀ n, is_audio_input (doReq f k
          (if keep.contains info.inputName then unmute_input_req s info.inputName
           else mute_input_req s info.inputName) s).1 n = is_audio_input s0 n :=
        fun n => by simp only [is_audio_input_doReq, hinv n]
      by_cases hk : keep.contains info.inputName = true
      · simp only [mute_all_but_go, ha, hk, if_true, unmute_input_req,
          Option.toList_some, List.cons_append, List.nil_append, List.mem_cons] at hr
        rcases hr with rfl | hr
        · constructor
          · simp only [reqName]
            rw [← hinv]
            exact ha
          · simp only [reqName, hk, Bool.not_true]
        · exact ih _ _ (fun n => by simp only [is_audio_input_doReq, hinv n]) r hr
      · simp only [Bool.not_eq_true] at hk
        simp only [mute_all_but_go, ha, hk, if_true, Bool.false_eq_true, if_false,
          mute_input_req, Option.toList_some, List.cons_append, List.nil_append,
          List.mem_cons] at hr
        rcases hr with rfl | hr
        · constructor
          · simp only [reqName]
            rw [← hinv]
            exact ha
          · simp only [reqName, hk, Bool.not_false]
        · exact ih _ _ (fun n => by simp only [is_audio_input_doReq, hinv n]) r hr
    · simp only [Bool.not_eq_true] at ha
      simp only [mute_all_but_go, ha, Bool.false_eq_true, if_false] at hr
      exact ih _ _ hinv r hr

theorem mute_all_but_go_trace_complete (f : Nat → Bool) (keep : List String)
    (l : List InputInfo) (s0 s : State) (k : Nat)
    (hinv : ∀ n, is_audio_input s n = is_audio_input s0 n) :
    ∀ i ∈ l, is_audio_input s0 i.inputName = true →
      Request.setMute i.inputName (!keep.contains i.inputName) ∈
        (mute_all_but_go f keep l s k).1 := by
  induction l generalizing s k hinv with
  | nil => intro i hi; simp at hi
  | cons info rest ih =>
    intro i hi hai
    rcases List.mem_cons.mp hi with rfl | hi
    · have ha : is_audio_input s i.inputName = true := (hinv _).trans hai
      by_cases hk : keep.contains i.inputName = true
      · simp only [mute_all_but_go, ha, hk, if_true, unmute_input_req,
          Option.toList_some, List.cons_append, List.nil_append, List.mem_cons]
        left
        simp only [hk, Bool.not_true]
      · simp only [Bool.not_eq_true] at hk
        simp only [mute_all_but_go, ha, hk, if_true, Bool.false_eq_true, if_false,
          mute_input_req, Option.toList_some, List.cons_append, List.nil_append,
          List.mem_cons]
        left
        simp only [hk, Bool.not_false]
    · by_cases ha : is_audio_input s info.inputName = true
      · by_cases hk : keep.contains info.inputName = true
        · simp only [mute_all_but_go, ha, hk, if_true, unmute_input_req,
            Option.toList_some, List.cons_append, List.nil_append, List.mem_cons]
          right
          exact ih _ _ (fun n => by simp only [is_audio_input_doReq, hinv n]) i hi hai
        · simp only [Bool.not_eq_true] at hk
          simp only [mute_all_but_go, ha, hk, if_true, Bool.false_eq_true, if_false,
            mute_input_req, Option.toList_some, List.cons_append, List.nil_append,
            List.mem_cons]
          right
          exact ih _ _ (fun n => by simp only [is_audio_input_doReq, hinv n]) i hi hai
      · simp only [Bool.not_eq_true] at ha
        simp only [mute_all_but_go, ha, Bool.false_eq_true, if_false]
        exact ih _ _ hinv i hi hai

theorem mute_all_but_go_keep_irrel (f : Nat → Bool) (n : String) (keep : List String)
    (l : List InputInfo) (s0 s : State) (k : Nat)
    (hinv : ∀ m, is_audio_input s m = is_audio_input s0 m)
    (hn : is_audio_input s0 n = false) :
    mute_all_but_go f (n :: keep) l s k = mute_all_but_go f keep l s k := by
  induction l generalizing s k hinv with
  | nil => rfl
  | cons info rest ih =>
    by_cases ha : is_audio_input s info.inputName = true
    · have hne : (info.inputName == n) = false := by
        refine beq_eq_false_iff_ne.mpr (fun e => ?_)
        rw [e] at ha
        rw [hinv n, hn] at ha
        cases ha
      have hcons : (n :: keep).contains info.inputName = keep.contains info.inputName := by
        simp only [List.contains_cons, hne, Bool.false_or]
      simp only [mute_all_but_go, ha, if_true, hcons]
      by_cases hk : keep.contains info.inputName = true
      · simp only [hk, if_true]
        rw [ih _ _ (fun m => by simp only [is_audio_input_doReq, hinv m])]
      · simp only [Bool.not_eq_true] at hk
        simp only [hk, Bool.false_eq_true, if_false]
        rw [ih _ _ (fun m => by simp only [is_audio_input_doReq, hinv m])]
    · simp only [Bool.not_eq_true] at ha
      simp only [mute_all_but_go, ha, Bool.false_eq_true, if_false]
      exact ih _ _ hinv

/-! ## Loop lemmas: `mute_all_audio` -/

theorem mute_all_audio_go_state (skip : List String) (l : List InputInfo)
    (s : State) (k : Nat) :
    (mute_all_audio_go allOk skip l s k).2.1 = run (mute_all_audio_go allOk skip l s k).1 s := by
  induction l generalizing s k with
  | nil => rfl
  | cons info rest ih =>
    by_cases hs : skip.contains info.inputName = true
    · simp only [mute_all_audio_go, hs, if_true, ih]
    · simp only [Bool.not_eq_true] at hs
      by_cases ha : is_audio_input s info.inputName = true
      · simp only [mute_all_audio_go, hs, Bool.false_eq_true, if_false, ha, if_true,
          mute_input_req, doReq, allOk, Option.toList_some, List.cons_append,
          List.nil_append, run_cons, ih]
      · simp only [Bool.not_eq_true] at ha
        simp only [mute_all_audio_go, hs, ha, Bool.false_eq_true, if_false, ih]

theorem mute_all_audio_go_trace_congr (f g : Nat → Bool) (skip : List String)
    (l : List InputInfo) (s1 s2 : State) (k1 k2 : Nat)
    (h : ∀ n, is_audio_input s1 n = is_audio_input s2 n) :
    (mute_all_audio_go f skip l s1 k1).1 = (mute_all_audio_go g skip l s2 k2).1 := by
  induction l generalizing s1 s2 k1 k2 with
  | nil => rfl
  | cons info rest ih =>
    by_cases hs : skip.contains info.inputName = true
    · simp only [mute_all_audio_go, hs, if_true]
      exact ih _ _ _ _ h
    · simp only [Bool.not_eq_true] at hs
      by_cases ha : is_audio_input s1 info.inputName = true
      · have ha2 : is_audio_input s2 info.inputName = true := (h info.inputName).symm.trans ha
        simp only [mute_all_audio_go, hs, Bool.false_eq_true, if_false, ha, ha2, if_true,
          mute_input_req, Option.toList_some, List.cons_append, List.nil_append]
        congr 1
        exact ih _ _ _ _ (fun n => by simp only [is_audio_input_doReq, h n])
      · have ha2 : ¬is_audio_input s2 info.inputName = true := fun hh =>
          ha ((h info.inputName).trans hh)
        simp only [Bool.not_eq_true] at ha ha2
        simp only [mute_all_audio_go, hs, ha, ha2, Bool.false_eq_true, if_false]
        exact ih _ _ _ _ h

theorem mute_all_audio_go_trace_shape (f : Nat → Bool) (skip : List String)
    (l : List InputInfo) (s0 s : State) (k : Nat)
    (hinv : ∀ n, is_audio_input s n = is_audio_input s0 n) :
    ∀ r ∈ (mute_all_audio_go f skip l s k).1,
      is_audio_input s0 (reqName r) = true ∧ skip.contains (reqName r) = false ∧
      r = Request.setMute (reqName r) true := by
  induction l generalizing s k hinv with
  | nil => intro r hr; simp [mute_all_audio_go] at hr
  | cons info rest ih =>
    intro r hr
    by_cases hs : skip.contains info.inputName = true
    · simp only [mute_all_audio_go, hs, if_true] at hr
      exact ih _ _ hinv r hr
    · simp only [Bool.not_eq_true] at hs
      by_cases ha : is_audio_input s info.inputName = true
      · simp only [mute_all_audio_go, hs, Bool.false_eq_true, if_false, ha, if_true,
          mute_input_req, Option.toList_some, List.cons_append, List.nil_append,
          List.mem_cons] at hr
        rcases hr with rfl | hr
        · refine ⟨?_, ?_, rfl⟩
          · simp only [reqName]
            rw [← hinv]
            exact ha
          · simpa only [reqName] using hs
        · exact ih _ _ (fun n => by simp only [is_audio_input_doReq, hinv n]) r hr
      · simp only [Bool.not_eq_true] at ha
        simp only [mute_all_audio_go, hs, ha, Bool.false_eq_true, if_false] at hr
        exact ih _ _ hinv r hr

theorem mute_all_audio_go_trace_complete (f : Nat → Bool) (skip : List String)
    (l : List InputInfo) (s0 s : State) (k : Nat)
    (hinv : ∀ n, is_audio_input s n = is_audio_input s0 n) :
    ∀ i ∈ l, skip.contains i.inputName = false → is_audio_input s0 i.inputName = true →
      Request.setMute i.inputName true ∈ (mute_all_audio_go f skip l s k).1 := by
  induction l generalizing s k hinv with
  | nil => intro i hi; simp at hi
  | cons info rest ih =>
    intro i hi hsk hai
    rcases List.mem_cons.mp hi with rfl | hi
    · have ha : is_audio_input s i.inputName = true := (hinv _).trans hai
      simp only [mute_all_audio_go, hsk, Bool.false_eq_true, if_false, ha, if_true,
        mute_input_req, Option.toList_some, List.cons_append, List.nil_append,
        List.mem_cons]
      left
      trivial
    · by_cases hs : skip.contains info.inputName = true
      · simp only [mute_all_audio_go, hs, if_true]
        exact ih _ _ hinv i hi hsk hai
      · simp only [Bool.not_eq_true] at hs
        by_cases ha : is_audio_input s info.inputName = true
        · simp only [mute_all_audio_go, hs, Bool.false_eq_true, if_false, ha, if_true,
            mute_input_req, Option.toList_some, List.cons_append, List.nil_append,
            List.mem_cons]
          right
          exact ih _ _ (fun n => by simp only [is_audio_input_doReq, hinv n]) i hi hsk hai
        · simp only [Bool.not_eq_true] at ha
          simp only [mute_all_audio_go, hs, ha, Bool.false_eq_true, if_false]
          exact ih _ _ hinv i hi hsk hai

/-! ## Loop lemmas: `unmute_all_audio` -/

theorem unmute_all_go_state (l : List String) (s : State) (k : Nat) :
    (unmute_all_go allOk l s k).2.1 = run (unmute_all_go allOk l s k).1 s := by
  induction l generalizing s k with
  | nil => rfl
  | cons name rest ih =>
    by_cases ha : is_audio_input s name = true
    · simp only [unmute_all_go, unmute_input_req, ha, if_true, doReq, allOk,
        Option.toList_some, List.cons_append, List.nil_append, run_cons, ih]
    · simp only [Bool.not_eq_true] at ha
      simp only [unmute_all_go, unmute_input_req, ha, Bool.false_eq_true, if_false, doReq,
        Option.toList_none, List.nil_append, ih]

theorem unmute_all_go_trace_congr (f g : Nat → Bool) (l : List String)
    (s1 s2 : State) (k1 k2 : Nat)
    (h : ∀ n, is_audio_input s1 n = is_audio_input s2 n) :
    (unmute_all_go f l s1 k1).1 = (unmute_all_go g l s2 k2).1 := by
  induction l generalizing s1 s2 k1 k2 with
  | nil => rfl
  | cons name rest ih =>
    by_cases ha : is_audio_input s1 name = true
    · have ha2 : is_audio_input s2 name = true := (h name).symm.trans ha
      simp only [unmute_all_go, unmute_input_req, ha, ha2, if_true, Option.toList_some,
        List.cons_append, List.nil_append]
      congr 1
      exact ih _ _ _ _ (fun n => by simp only [is_audio_input_doReq, h n])
    · have ha2 : ¬is_audio_input s2 name = true := fun hh => ha ((h name).trans hh)
      simp only [Bool.not_eq_true] at ha ha2
      simp only [unmute_all_go, unmute_input_req, ha, ha2, Bool.false_eq_true, if_false,
        Option.toList_none, List.nil_append, doReq]
      exact ih _ _ _ _ h

theorem unmute_all_go_trace_shape (f : Nat → Bool) (l : List String)
    (s0 s : State) (k : Nat)
    (hinv : ∀ n, is_audio_input s n = is_audio_input s0 n) :
    ∀ r ∈ (unmute_all_go f l s k).1,
      is_audio_input s0 (reqName r) = true ∧ reqName r ∈ l ∧
      r = Request.setMute (reqName r) false := by
  induction l generalizing s k hinv with
  | nil => intro r hr; simp [unmute_all_go] at hr
  | cons name rest ih =>
    intro r hr
    by_cases ha : is_audio_input s name = true
    · simp only [unmute_all_go, unmute_input_req, ha, if_true, Option.toList_some,
        List.cons_append, List.nil_append, List.mem_cons] at hr
      rcases hr with rfl | hr
      · refine ⟨?_, ?_, rfl⟩
        · simp only [reqName]
          rw [← hinv]
          exact ha
        · simp [reqName]
      · have := ih _ _ (fun n => by simp only [is_audio_input_doReq, hinv n]) r hr
        exact ⟨this.1, List.mem_cons_of_mem _ this.2.1, this.2.2⟩
    · simp only [Bool.not_eq_true] at ha
      simp only [unmute_all_go, unmute_input_req, ha, Bool.false_eq_true, if_false,
        Option.toList_none, List.nil_append, doReq] at hr
      have := ih _ _ hinv r hr
      exact ⟨this.1, List.mem_cons_of_mem _ this.2.1, this.2.2⟩

theorem unmute_all_go_trace_complete (f : Nat → Bool) (l : List String)
    (s0 s : State) (k : Nat)
    (hinv : ∀ n, is_audio_input s n = is_audio_input s0 n) :
    ∀ n ∈ l, is_audio_input s0 n = true →
      Request.setMute n false ∈ (unmute_all_go f l s k).1 := by
  induction l generalizing s k hinv with
  | nil => intro n hn; simp at hn
  | cons name rest ih =>
    intro n hn hna
    rcases List.mem_cons.mp hn with rfl | hn
    · have ha : is_audio_input s n = true := (hinv _).trans hna
      simp only [unmute_all_go, unmute_input_req, ha, if_true, Option.toList_some,
        List.cons_append, List.nil_append, List.mem_cons]
      left
      trivial
    · by_cases ha : is_audio_input s name = true
      · simp only [unmute_all_go, unmute_input_req, ha, if_true, Option.toList_some,
          List.cons_append, List.nil_append, List.mem_cons]
        right
        exact ih _ _ (fun m => by simp only [is_audio_input_doReq, hinv m]) n hn hna
      · simp only [Bool.not_eq_true] at ha
        simp only [unmute_all_go, unmute_input_req, ha, Bool.false_eq_true, if_false,
          Option.toList_none, List.nil_append, doReq]
        exact ih _ _ hinv n hn hna

/-! ## Unique input names -/

theorem get_input_info_of_mem (s : State) (i : InputInfo)
    (hu : UniqNames s) (hi : i ∈ s) :
    get_input_info s i.inputName = some i := by
  induction s with
  | nil => cases hi
  | cons hd tl ih =>
    have hu2 := hu
    rw [UniqNames, List.map_cons, List.nodup_cons] at hu2
    rcases List.mem_cons.mp hi with rfl | hi
    · simp [get_input_info, List.find?_cons_of_pos]
    · have hne : (hd.inputName == i.inputName) = false := by
        refine beq_eq_false_iff_ne.mpr (fun e => hu2.1 ?_)
        rw [e]
        exact List.mem_map_of_mem _ hi
      rw [get_input_info, List.find?_cons_of_neg _ (by simp [hne])]
      exact ih hu2.2 hi

theorem is_audio_input_of_mem (s : State) (i : InputInfo)
    (hu : UniqNames s) (hi : i ∈ s) :
    is_audio_input s i.inputName = supports_audio (i.inputKindCaps.getD 0) := by
  rw [is_audio_input, get_input_info_of_mem s i hu hi]

/-! ## The capability bit -/

theorem supports_audio_eq_testBit (b : Nat) : supports_audio b = b.testBit 1 := by
  have h2 : SUPPORTS_AUDIO = 2 ^ 1 := rfl
  rw [supports_audio, h2, Nat.and_two_pow]
  cases hb : b.testBit 1 <;> simp [hb]

/-! ## Claims -/

/-- C1: `mute_all_but(K)` and `unmute_only(K)` are the same batch policy: for
every keep-set `K`, every input population (inputs that are absent or not
audio-capable included) and every gateway behavior, they issue the same
mutation requests and produce identical final mute states for all inputs. -/
theorem unmute_only_eq_mute_all_but (f : Nat → Bool) (keep : List String) (s : State) :
    unmute_only f keep s = mute_all_but f keep s := by
  simp only [unmute_only, mute_all_but, unmute_only_go_eq_mute_all_but_go]

/-- C2: the audio-capability decoder returns exactly `bool(b & 2)` — true iff
bit 1 (value 2) of the bitmask is set — and in particular agrees with
`bool(b & 2)` on `b ∈ {0, 1, 2, 3, 6}`; it is a total function with no
failure mode. -/
theorem supports_audio_correct :
    (∀ b : Nat, supports_audio b = b.testBit 1) ∧
    supports_audio 0 = false ∧ supports_audio 1 = false ∧ supports_audio 2 = true ∧
    supports_audio 3 = true ∧ supports_audio 6 = true :=
  ⟨supports_audio_eq_testBit, by decide, by decide, by decide, by decide, by decide⟩

/-- C6: when `name` is not a child of any top-level group of the current
scene, `find_in_groups` returns `(absent, absent)` rather than raising — even
when a top-level item that is not a group bears that very name. -/
theorem find_in_groups_absent (items : List TopItem) (name : String)
    (h : ∀ item ∈ items, ∀ c ∈ item.children.getD [], c.sourceName ≠ name) :
    find_in_groups items name = (none, none) := by
  induction items with
  | nil => rfl
  | cons item rest ih =>
    cases hc : item.children with
    | none =>
      simp only [find_in_groups, hc]
      exact ih (fun it hit => h it (List.mem_cons_of_mem _ hit))
    | some kids =>
      have hfind : kids.find? (fun c => c.sourceName == name) = none := by
        rw [List.find?_eq_none]
        intro c hcmem
        have := h item (List.mem_cons_self _ _) c (by rw [hc]; exact hcmem)
        simp [this]
      simp only [find_in_groups, hc, hfind]
      exact ih (fun it hit => h it (List.mem_cons_of_mem _ hit))

/-- Witness for C6: the scene has one group (with child `mic`) and one
top-level non-group item named `z`; looking up `z` is absent, not an error. -/
theorem find_in_groups_absent_witness :
    find_in_groups
      [TopItem.mk "Audio" (some [SceneChild.mk "mic" 3]), TopItem.mk "z" none] "z" =
      (none, none) :=
  find_in_groups_absent _ "z" (by decide)

/-- C7: `get_sources` returns exactly the concatenation of the children names
of the current scene's top-level groups, in group enumeration order then
child order, excluding every top-level non-group item and preserving
duplicates across groups; on groups `A=[x,y]`, `B=[y]` and ungrouped leaf `z`
it returns `[x, y, y]`. -/
theorem get_sources_correct :
    (∀ items : List TopItem,
      get_sources items =
        ((items.filterMap (fun it => it.children)).map
          (fun kids => kids.map (fun c => c.sourceName))).flatten) ∧
    get_sources
      [TopItem.mk "A" (some [SceneChild.mk "x" 1, SceneChild.mk "y" 2]),
       TopItem.mk "B" (some [SceneChild.mk "y" 3]),
       TopItem.mk "z" none] = ["x", "y", "y"] := by
  constructor
  · intro items
    induction items with
    | nil => rfl
    | cons item rest ih =>
      cases hc : item.children with
      | none => simp [get_sources, hc, List.filterMap_cons, ih]
      | some kids => simp [get_sources, hc, List.filterMap_cons, ih]
  · rfl

/-- C5: on a name that does not exist in the input list, or that names an
input that is not audio-capable, each of `mute_input`, `unmute_input` and
`toggle_input_mute` returns failure, issues no mutation request and leaves
every input's state unchanged: the capability check precedes any mutation
attempt. -/
theorem primitives_fail_without_audio (s : State) (name : String)
    (h : get_input_info s name = none ∨
      ∃ i, get_input_info s name = some i ∧
        supports_audio (i.inputKindCaps.getD 0) = false) :
    mute_input_req s name = none ∧ unmute_input_req s name = none ∧
    toggle_input_mute_req s name = none ∧
    mute_input s name = (false, s) ∧ unmute_input s name = (false, s) ∧
    toggle_input_mute s name = (false, s) := by
  have ha : is_audio_input s name = false := by
    rcases h with h | ⟨i, hi, hc⟩
    · simp [is_audio_input, h]
    · simp [is_audio_input, hi, hc]
  refine ⟨?_, ?_, ?_, ?_, ?_, ?_⟩ <;>
    simp [mute_input, unmute_input, toggle_input_mute, mute_input_req,
      unmute_input_req, toggle_input_mute_req, ha]

/-- Witness for C5: `cam` exists but its bitmask 1 lacks the audio bit;
`mute_input` fails and the state is untouched. -/
theorem primitives_fail_without_audio_witness :
    mute_input [InputInfo.mk "cam" (some 1) false] "cam" =
      (false, [InputInfo.mk "cam" (some 1) false]) :=
  (primitives_fail_without_audio [InputInfo.mk "cam" (some 1) false] "cam"
    (Or.inr ⟨InputInfo.mk "cam" (some 1) false, rfl, rfl⟩)).2.2.2.1

/-- C10: an input whose info record lacks the `inputKindCaps` field entirely
is decoded with bitmask 0 and classified non-audio — no error is raised —
and consequently no mute/unmute/toggle primitive mutates it. -/
theorem missing_caps_is_non_audio (s : State) (name : String) (i : InputInfo)
    (hi : get_input_info s name = some i) (hc : i.inputKindCaps = none) :
    is_audio_input s name = false ∧
    mute_input_req s name = none ∧ unmute_input_req s name = none ∧
    toggle_input_mute_req s name = none ∧
    mute_input s name = (false, s) ∧ unmute_input s name = (false, s) ∧
    toggle_input_mute s name = (false, s) := by
  have h0 : supports_audio 0 = false := rfl
  have ha : is_audio_input s name = false := by
    simp [is_audio_input, hi, hc, h0]
  refine ⟨ha, ?_, ?_, ?_, ?_, ?_, ?_⟩ <;>
    simp [mute_input, unmute_input, toggle_input_mute, mute_input_req,
      unmute_input_req, toggle_input_mute_req, ha]

/-- Witness for C10: a record with no bitmask field is non-audio and
`toggle_input_mute` refuses to touch it. -/
theorem missing_caps_is_non_audio_witness :
    is_audio_input [InputInfo.mk "legacy" none true] "legacy" = false ∧
    toggle_input_mute [InputInfo.mk "legacy" none true] "legacy" =
      (false, [InputInfo.mk "legacy" none true]) :=
  ⟨(missing_caps_is_non_audio [InputInfo.mk "legacy" none true] "legacy"
      (InputInfo.mk "legacy" none true) (by decide) rfl).1,
   (missing_caps_is_non_audio [InputInfo.mk "legacy" none true] "legacy"
      (InputInfo.mk "legacy" none true) (by decide) rfl).2.2.2.2.2.2⟩

theorem toggle_input_mute_eq_of_req (s : State) (name : String) (r : Request)
    (h : toggle_input_mute_req s name = some r) :
    toggle_input_mute s name = (true, applyReq r s) := by
  simp [toggle_input_mute, h]

/-- C8: on an existing audio-capable input, with no interleaved external
change, toggling the mute twice succeeds both times and restores the
original mute state. -/
theorem toggle_mute_twice_restores (s : State) (name : String)
    (h : is_audio_input s name = true) :
    (toggle_input_mute s name).1 = true ∧
    (toggle_input_mute (toggle_input_mute s name).2 name).1 = true ∧
    (toggle_input_mute (toggle_input_mute s name).2 name).2 = s := by
  have h1 : toggle_input_mute_req s name = some (Request.toggleMute name) := by
    simp [toggle_input_mute_req, h]
  have hs1 : (toggle_input_mute s name).2 = applyReq (Request.toggleMute name) s := by
    simp [toggle_input_mute, h1]
  have h2 : is_audio_input (toggle_input_mute s name).2 name = true := by
    rw [hs1, is_audio_input_applyReq]
    exact h
  have h1b : toggle_input_mute_req (toggle_input_mute s name).2 name =
      some (Request.toggleMute name) := by
    simp [toggle_input_mute_req, h2]
  have hdouble : ∀ i : InputInfo,
      applyEntry (Request.toggleMute name) (applyEntry (Request.toggleMute name) i) = i := by
    rintro ⟨n0, c0, m0⟩
    by_cases hn : n0 = name
    · simp [applyEntry, hn]
    · have hb : (n0 == name) = false := beq_eq_false_iff_ne.mpr hn
      simp [applyEntry, hb]
  refine ⟨?_, ?_, ?_⟩
  · rw [toggle_input_mute_eq_of_req _ _ _ h1]
  · rw [toggle_input_mute_eq_of_req _ _ _ h1b]
  · rw [toggle_input_mute_eq_of_req _ _ _ h1b]
    show applyReq (Request.toggleMute name) (toggle_input_mute s name).2 = s
    rw [hs1, applyReq, applyReq, List.map_map]
    exact List.map_id'' (fun i => hdouble i) s

/-- Witness for C8: toggling `mic` (bitmask 2, initially unmuted) twice
returns it to its original state. -/
theorem toggle_mute_twice_restores_witness :
    is_audio_input [InputInfo.mk "mic" (some 2) false] "mic" = true ∧
    (toggle_input_mute
        (toggle_input_mute [InputInfo.mk "mic" (some 2) false] "mic").2 "mic").2 =
      [InputInfo.mk "mic" (some 2) false] :=
  ⟨by decide, (toggle_mute_twice_restores _ "mic" (by decide)).2.2⟩

/-- C3: `mute_all_audio(except=E)` mutes every audio-capable input whose name
is not in `E`, issues no mute or unmute request for any name in `E`, and
leaves every other input (names in `E`, and non-audio-capable inputs)
exactly in the mute state it had. -/
theorem mute_all_audio_spec (E : List String) (s : State) (hu : UniqNames s) :
    (∀ r ∈ (mute_all_audio allOk E s).1, E.contains (reqName r) = false) ∧
    (mute_all_audio allOk E s).2 =
      s.map (fun i =>
        if E.contains i.inputName = false ∧ supports_audio (i.inputKindCaps.getD 0) = true
        then { i with muted := true } else i) := by
  have hinv : ∀ n, is_audio_input s n = is_audio_input s n := fun _ => rfl
  have shape := mute_all_audio_go_trace_shape allOk E s s s 0 hinv
  have complete := mute_all_audio_go_trace_complete allOk E s s s 0 hinv
  constructor
  · intro r hr
    exact (shape r hr).2.1
  · have hstate : (mute_all_audio allOk E s).2 =
        run (mute_all_audio_go allOk E s s 0).1 s := by
      simp only [mute_all_audio]
      exact mute_all_audio_go_state E s s 0
    rw [hstate, run_eq_map]
    refine List.map_congr_left (fun i hi => ?_)
    have hname : is_audio_input s i.inputName = supports_audio (i.inputKindCaps.getD 0) :=
      is_audio_input_of_mem s i hu hi
    by_cases hcond : E.contains i.inputName = false ∧
        supports_audio (i.inputKindCaps.getD 0) = true
    · rw [if_pos hcond]
      have hall : ∀ r ∈ (mute_all_audio_go allOk E s s 0).1, isSetTrue r = true := by
        intro r hr
        rw [(shape r hr).2.2]
        rfl
      rw [applyAll_allSetTrue _ _ hall]
      have hmem : Request.setMute i.inputName true ∈ (mute_all_audio_go allOk E s s 0).1 :=
        complete i hi hcond.1 (hname.trans hcond.2)
      have hany : ((mute_all_audio_go allOk E s s 0).1.any
          (fun r => reqName r == i.inputName)) = true := by
        rw [List.any_eq_true]
        exact ⟨_, hmem, by simp [reqName]⟩
      rw [hany]
      simp
    · rw [if_neg hcond]
      refine applyAll_of_not_targeted _ _ (fun r hr he => ?_)
      rcases Decidable.not_and_iff_or_not.mp hcond with hE | hs2
      · have : E.contains i.inputName = true := by
          cases hEc : E.contains i.inputName with
          | false => exact absurd hEc hE
          | true => rfl
        rw [← he] at this
        rw [(shape r hr).2.1] at this
        cases this
      · have haud := (shape r hr).1
        rw [he, hname] at haud
        exact hs2 haud

/-- Witness for C3: with exception set `{mic}`, `desktop` (audio) gets muted,
`mic` keeps its unmuted state, and `cam` (non-audio) is untouched. -/
theorem mute_all_audio_spec_witness :
    (mute_all_audio allOk ["mic"]
      [InputInfo.mk "mic" (some 2) false, InputInfo.mk "desktop" (some 2) false,
       InputInfo.mk "cam" (some 1) true]).2 =
      [InputInfo.mk "mic" (some 2) false, InputInfo.mk "desktop" (some 2) true,
       InputInfo.mk "cam" (some 1) true] :=
  ((mute_all_audio_spec ["mic"]
    [InputInfo.mk "mic" (some 2) false, InputInfo.mk "desktop" (some 2) false,
     InputInfo.mk "cam" (some 1) true] (by decide)).2).trans (by decide)

/-- C4: after `mute_all_but` with an empty keep-set every audio-capable input
is muted; every issued request targets an audio-capable name, so inputs that
are not audio-capable keep their mute state; and keep-set entries that do not
exist or are not audio-capable have no effect at all. -/
theorem mute_all_but_empty_spec (s : State) (hu : UniqNames s) :
    (mute_all_but allOk [] s).2 =
      s.map (fun i =>
        if supports_audio (i.inputKindCaps.getD 0) = true
        then { i with muted := true } else i) ∧
    (∀ r ∈ (mute_all_but allOk [] s).1, is_audio_input s (reqName r) = true) ∧
    (∀ (f : Nat → Bool) (n : String) (keep : List String), is_audio_input s n = false →
      mute_all_but f (n :: keep) s = mute_all_but f keep s) := by
  have hinv : ∀ n, is_audio_input s n = is_audio_input s n := fun _ => rfl
  have shape := mute_all_but_go_trace_shape allOk [] s s s 0 hinv
  have complete := mute_all_but_go_trace_complete allOk [] s s s 0 hinv
  refine ⟨?_, ?_, ?_⟩
  · have hstate : (mute_all_but allOk [] s).2 =
        run (mute_all_but_go allOk [] s s 0).1 s := by
      simp only [mute_all_but]
      exact mute_all_but_go_state [] s s 0
    rw [hstate, run_eq_map]
    refine List.map_congr_left (fun i hi => ?_)
    have hname : is_audio_input s i.inputName = supports_audio (i.inputKindCaps.getD 0) :=
      is_audio_input_of_mem s i hu hi
    by_cases hcond : supports_audio (i.inputKindCaps.getD 0) = true
    · rw [if_pos hcond]
      have hall : ∀ r ∈ (mute_all_but_go allOk [] s s 0).1, isSetTrue r = true := by
        intro r hr
        rw [(shape r hr).2]
        rfl
      rw [applyAll_allSetTrue _ _ hall]
      have hmem : Request.setMute i.inputName true ∈ (mute_all_but_go allOk [] s s 0).1 := by
        have := complete i hi (hname.trans hcond)
        simpa using this
      have hany : ((mute_all_but_go allOk [] s s 0).1.any
          (fun r => reqName r == i.inputName)) = true := by
        rw [List.any_eq_true]
        exact ⟨_, hmem, by simp [reqName]⟩
      rw [hany]
      simp
    · rw [if_neg hcond]
      refine applyAll_of_not_targeted _ _ (fun r hr he => ?_)
      have haud := (shape r hr).1
      rw [he, hname] at haud
      exact hcond haud
  · intro r hr
    exact (shape r hr).1
  · intro f n keep hn
    simp only [mute_all_but]
    rw [mute_all_but_go_keep_irrel f n keep s s s 0 hinv hn]

/-- Witness for C4: with an empty keep-set, both audio inputs end muted, the
non-audio `cam` is untouched, and adding the non-audio name `cam` or the
absent name `ghost` to the keep-set changes nothing. -/
theorem mute_all_but_empty_spec_witness :
    (mute_all_but allOk []
      [InputInfo.mk "mic" (some 2) false, InputInfo.mk "desktop" (some 6) false,
       InputInfo.mk "cam" (some 1) false]).2 =
      [InputInfo.mk "mic" (some 2) true, InputInfo.mk "desktop" (some 6) true,
       InputInfo.mk "cam" (some 1) false] ∧
    mute_all_but allOk ["ghost"]
      [InputInfo.mk "mic" (some 2) false, InputInfo.mk "desktop" (some 6) false,
       InputInfo.mk "cam" (some 1) false] =
      mute_all_but allOk []
      [InputInfo.mk "mic" (some 2) false, InputInfo.mk "desktop" (some 6) false,
       InputInfo.mk "cam" (some 1) false] :=
  ⟨((mute_all_but_empty_spec
      [InputInfo.mk "mic" (some 2) false, InputInfo.mk "desktop" (some 6) false,
       InputInfo.mk "cam" (some 1) false] (by decide)).1).trans (by decide),
   (mute_all_but_empty_spec
      [InputInfo.mk "mic" (some 2) false, InputInfo.mk "desktop" (some 6) false,
       InputInfo.mk "cam" (some 1) false] (by decide)).2.2 allOk "ghost" [] (by decide)⟩

/-- C9: every batch operation is a loop of independent best-effort mutations:
whatever pattern `f` of per-request gateway failures occurs, each batch
issues exactly the same mutation attempts as under the never-failing gateway
— so a failure on one input never prevents the attempts on the remaining
inputs — and every eligible input's mutation is attempted. -/
theorem batches_best_effort (f : Nat → Bool) (E K only : List String) (s : State) :
    (mute_all_audio f E s).1 = (mute_all_audio allOk E s).1 ∧
    (unmute_all_audio f (some only) s).1 = (unmute_all_audio allOk (some only) s).1 ∧
    (unmute_all_audio f none s).1 = (unmute_all_audio allOk none s).1 ∧
    (mute_all_but f K s).1 = (mute_all_but allOk K s).1 ∧
    (unmute_only f K s).1 = (unmute_only allOk K s).1 ∧
    (∀ i ∈ s, E.contains i.inputName = false → is_audio_input s i.inputName = true →
      Request.setMute i.inputName true ∈ (mute_all_audio f E s).1) ∧
    (∀ n ∈ only, is_audio_input s n = true →
      Request.setMute n false ∈ (unmute_all_audio f (some only) s).1) ∧
    (∀ i ∈ s, is_audio_input s i.inputName = true →
      Request.setMute i.inputName (!K.contains i.inputName) ∈ (mute_all_but f K s).1) := by
  have hinv : ∀ n, is_audio_input s n = is_audio_input s n := fun _ => rfl
  refine ⟨?_, ?_, ?_, ?_, ?_, ?_, ?_, ?_⟩
  · exact mute_all_audio_go_trace_congr f allOk E s s s 0 0 hinv
  · exact unmute_all_go_trace_congr f allOk _ s s 0 0 hinv
  · exact unmute_all_go_trace_congr f allOk _ s s 0 0 hinv
  · exact mute_all_but_go_trace_congr f allOk K s s s 0 0 hinv
  · simp only [unmute_only, unmute_only_go_eq_mute_all_but_go]
    exact mute_all_but_go_trace_congr f allOk K s s s 0 0 hinv
  · intro i hi hE ha
    exact mute_all_audio_go_trace_complete f E s s s 0 hinv i hi hE ha
  · intro n hn ha
    have htgt : n ∈ only.filter (fun m => is_audio_input s m) :=
      List.mem_filter.mpr ⟨hn, ha⟩
    exact unmute_all_go_trace_complete f _ s s 0 hinv n htgt ha
  · intro i hi ha
    exact mute_all_but_go_trace_complete f K s s s 0 hinv i hi ha

/-- Witness for C9: the gateway drops the very first request (`f 0 = false`),
yet `mute_all_audio` still attempts both audio inputs: the trace equals the
no-failure trace and contains the second input's mute request. -/
theorem batches_best_effort_witness :
    (mute_all_audio (fun k => k != 0) []
      [InputInfo.mk "mic" (some 2) false, InputInfo.mk "desktop" (some 2) false]).1 =
      (mute_all_audio allOk []
      [InputInfo.mk "mic" (some 2) false, InputInfo.mk "desktop" (some 2) false]).1 ∧
    Request.setMute "desktop" true ∈
      (mute_all_audio (fun k => k != 0) []
      [InputInfo.mk "mic" (some 2) false, InputInfo.mk "desktop" (some 2) false]).1 :=
  ⟨(batches_best_effort (fun k => k != 0) [] [] []
      [InputInfo.mk "mic" (some 2) false, InputInfo.mk "desktop" (some 2) false]).1,
   (batches_best_effort (fun k => k != 0) [] [] []
      [InputInfo.mk "mic" (some 2) false, InputInfo.mk "desktop" (some 2) false]).2.2.2.2.2.1
     (InputInfo.mk "desktop" (some 2) false) (by decide) (by decide) (by decide)⟩
